import Mathlib
/-!
Verification of the payment transaction engine and its frontend helpers.
The backend engine (PaymentService, settlement simulator, ledger store) is
documented in the repository but its Python sources are not present; every
definition in the `PaymentSystem` namespace is therefore modelled from the
specification, as indicated by its doc comment.  The `Frontend` namespace
embeds the TypeScript helpers of `frontend/app` directly from their sources.
Money is represented as an integer number of cents (fixed-point, 2 decimals).
-/
namespace PaymentSystem

/-- Modelled from the spec: transaction status, `pending → processing →
completed/failed` (§3 Data model). -/
inductive Status where
  | pending
  | processing
  | completed
  | failed
deriving DecidableEq, Repr

/-- Modelled from the spec: a transaction record (§3 Data model); `amount`
is in cents. -/
structure Transaction where
  id : String
  debtorId : String
  creditorId : String
  amount : Int
  status : Status
  errorMessage : Option String
  completedAt : Option Nat
deriving DecidableEq, Repr

/-- Modelled from the spec: an audit-log entry (§3 Data model). -/
structure LogEntry where
  txnId : String
  oldStatus : Option Status
  newStatus : Status
  errorMessage : Option String
deriving DecidableEq, Repr

/-- Modelled from the spec: the ledger is a table of account id to balance
(in cents); each account occupies one row (§4.1 Ledger store). -/
abbrev Ledger := List (String × Int)

/-- Balance lookup in the ledger. -/
def lookupBal : Ledger → String → Option Int
  | [], _ => none
  | (k, b) :: rest, a => if k = a then some b else lookupBal rest a

/-- Overwrite the balance of the (first) row of an account. -/
def setBal : Ledger → String → Int → Ledger
  | [], _, _ => []
  | (k, b) :: rest, a, v => if k = a then (a, v) :: rest else (k, b) :: setBal rest a v

/-- Total of all balances in the ledger. -/
def sumBal (l : Ledger) : Int := (l.map Prod.snd).sum

/-- Modelled from the spec: `transfer(fromId, toId, amount)`, the only
balance mutator; the debit and the credit apply together or not at all, and
the transfer fails when the debtor's balance is insufficient or an account
is missing (§4.1 Ledger store). -/
def transfer (l : Ledger) (fromId toId : String) (amount : Int) : Option Ledger :=
  match lookupBal l fromId with
  | none => none
  | some fb =>
    if amount ≤ fb then
      match lookupBal (setBal l fromId (fb - amount)) toId with
      | none => none
      | some tb => some (setBal (setBal l fromId (fb - amount)) toId (tb + amount))
    else none

/-- Modelled from the spec: the whole engine state — ledger, transaction
store and append-only audit log (§2 System overview). -/
structure SysState where
  ledger : Ledger
  txns : List Transaction
  logs : List LogEntry
deriving DecidableEq, Repr

/-- Modelled from the spec: the creation-time error taxonomy (§7). -/
inductive PayError where
  | invalidAmount
  | accountNotFound
  | sameAccount
  | insufficientBalance
deriving DecidableEq, Repr

/-- A decimal number `num / 10 ^ scale`, the caller-supplied amount before
validation. -/
structure DecAmount where
  num : Int
  scale : Nat
deriving DecidableEq, Repr

/-- The exact value of a decimal amount in cents, when it has at most two
decimal places; `none` otherwise. -/
def toCents (d : DecAmount) : Option Int :=
  if (d.num * 100) % ((10 : Int) ^ d.scale) = 0 then
    some ((d.num * 100) / ((10 : Int) ^ d.scale))
  else none

/-- Modelled from the spec: creation-time amount validation — the amount
must be a positive number with at most 2 decimal places and at most the
configured maximum, else `InvalidAmount` (§4.2 step 1). -/
def validateAmountCents (maxCents : Int) (d : DecAmount) : Except PayError Int :=
  match toCents d with
  | none => .error .invalidAmount
  | some c => if 0 < c ∧ c ≤ maxCents then .ok c else .error .invalidAmount

/-- Modelled from the spec: the body of `POST create payment` (§6). -/
structure CreateReq where
  debtorId : String
  creditorId : String
  amount : DecAmount
  description : Option String
deriving Repr

/-- Modelled from the spec: `PaymentService.create` — validation in order
(amount, debtor exists, creditor exists, distinct accounts, sufficient
balance), failing fast with no partial write; on success it persists the
pending transaction together with its first audit entry and touches no
balance (§4.2). -/
def create_payment (maxCents : Int) (s : SysState) (req : CreateReq) (txnId : String) :
    SysState × Except PayError Transaction :=
  match validateAmountCents maxCents req.amount with
  | .error e => (s, .error e)
  | .ok cents =>
    match lookupBal s.ledger req.debtorId with
    | none => (s, .error .accountNotFound)
    | some dbal =>
      match lookupBal s.ledger req.creditorId with
      | none => (s, .error .accountNotFound)
      | some _ =>
        if req.debtorId = req.creditorId then (s, .error .sameAccount)
        else if dbal < cents then (s, .error .insufficientBalance)
        else
          ({ ledger := s.ledger, txns := s.txns ++ [{ id := txnId, debtorId := req.debtorId, creditorId := req.creditorId, amount := cents, status := .pending, errorMessage := none, completedAt := none }], logs := s.logs ++ [{ txnId := txnId, oldStatus := none, newStatus := .pending, errorMessage := none }] },
           .ok { id := txnId, debtorId := req.debtorId, creditorId := req.creditorId, amount := cents, status := .pending, errorMessage := none, completedAt := none })

/-- Find a transaction record by id (first match). -/
def findTxn : List Transaction → String → Option Transaction
  | [], _ => none
  | t :: rest, i => if t.id = i then some t else findTxn rest i

/-- Update the (first) transaction record with the given id. -/
def updateTxn : List Transaction → String → (Transaction → Transaction) → List Transaction
  | [], _, _ => []
  | t :: rest, i, f => if t.id = i then f t :: rest else t :: updateTxn rest i f

/-- Modelled from the spec: simulator phase 1 — after the first delay,
verify the status is exactly `pending` (else abort), move it to
`processing` and append the `pending→processing` audit entry atomically
(§4.3 Phase 1). -/
def start_processing (s : SysState) (txnId : String) : Option SysState :=
  match findTxn s.txns txnId with
  | none => none
  | some t =>
    if t.status = .pending then
      some { ledger := s.ledger, txns := updateTxn s.txns txnId (fun u => { u with status := .processing }), logs := s.logs ++ [{ txnId := txnId, oldStatus := some .pending, newStatus := .processing, errorMessage := none }] }
    else none

/-- Modelled from the spec: simulator success path —
`PaymentService.complete_payment` performs the ledger transfer, marks the
transaction `completed`, sets `completed_at` and appends the
`processing→completed` audit entry; `none` when the transaction is not in
`processing` or the transfer fails (§4.3 Phase 2, success path). -/
def complete_payment (s : SysState) (txnId : String) (now : Nat) : Option SysState :=
  match findTxn s.txns txnId with
  | none => none
  | some t =>
    if t.status = .processing then
      match transfer s.ledger t.debtorId t.creditorId t.amount with
      | none => none
      | some l2 =>
        some { ledger := l2, txns := updateTxn s.txns txnId (fun u => { u with status := .completed, completedAt := some now }), logs := s.logs ++ [{ txnId := txnId, oldStatus := some .processing, newStatus := .completed, errorMessage := none }] }
    else none

/-- Modelled from the spec: simulator failure path —
`PaymentService.fail_payment` marks the transaction `failed`, sets
`error_message` and `completed_at` and appends the `processing→failed`
audit entry; no ledger mutation occurs (§4.3 Phase 2, failure path). -/
def fail_payment (s : SysState) (txnId : String) (msg : String) (now : Nat) :
    Option SysState :=
  match findTxn s.txns txnId with
  | none => none
  | some t =>
    if t.status = .processing then
      some { ledger := s.ledger, txns := updateTxn s.txns txnId (fun u => { u with status := .failed, errorMessage := some msg, completedAt := some now }), logs := s.logs ++ [{ txnId := txnId, oldStatus := some .processing, newStatus := .failed, errorMessage := some msg }] }
    else none

/-- Modelled from the spec: one atomic step of the system — a successful
creation (with a freshly generated transaction id), or one of the three
simulator transitions.  Failed creations leave the state unchanged and so
need no step (§5 Concurrency model: each of these units is atomic, and
concurrent executions interleave them). -/
inductive Step (maxCents : Int) : SysState → SysState → Prop where
  | create (s s' : SysState) (req : CreateReq) (txnId : String) (t : Transaction) :
      (∀ u ∈ s.txns, u.id ≠ txnId) →
      create_payment maxCents s req txnId = (s', .ok t) →
      Step maxCents s s'
  | startProcessing (s s' : SysState) (txnId : String) :
      start_processing s txnId = some s' →
      Step maxCents s s'
  | completePay (s s' : SysState) (txnId : String) (now : Nat) :
      complete_payment s txnId now = some s' →
      Step maxCents s s'
  | failPay (s s' : SysState) (txnId msg : String) (now : Nat) :
      fail_payment s txnId msg now = some s' →
      Step maxCents s s'

/-- Reachability under interleaved atomic steps. -/
def Reachable (maxCents : Int) : SysState → SysState → Prop :=
  Relation.ReflTransGen (Step maxCents)

/-- The ordered sequence of `new_status` values of the audit entries of one
transaction. -/
def trailOf (logs : List LogEntry) (id : String) : List Status :=
  (logs.filter (fun e => e.txnId == id)).map (fun e => e.newStatus)

/-- The audit trail demanded by the status-transition history. -/
def expectedTrail : Status → List Status
  | .pending => [.pending]
  | .processing => [.pending, .processing]
  | .completed => [.pending, .processing, .completed]
  | .failed => [.pending, .processing, .failed]

/-- The audit-log invariant: transaction ids are unique, unknown ids have
no audit entries, and every transaction's entry sequence is exactly the
trail demanded by its current status. -/
def AuditInv (s : SysState) : Prop :=
  (s.txns.map Transaction.id).Nodup ∧
  (∀ i, (∀ t ∈ s.txns, t.id ≠ i) → trailOf s.logs i = []) ∧
  (∀ t ∈ s.txns, trailOf s.logs t.id = expectedTrail t.status)

/-- All ledger balances are non-negative. -/
def LedgerNonNeg (s : SysState) : Prop := ∀ p ∈ s.ledger, 0 ≤ p.2

/-- Every persisted transaction carries a positive amount. -/
def AmountsPos (s : SysState) : Prop := ∀ t ∈ s.txns, 0 < t.amount

/-- Modelled from the spec: keep only the transactions matching the
optional status filter (§6, list endpoint). -/
def filterByStatus (txns : List Transaction) (st : Option Status) : List Transaction :=
  match st with
  | none => txns
  | some st2 => txns.filter (fun t => t.status == st2)

/-- Modelled from the spec: the pagination block of the list response. -/
structure Pagination where
  total : Nat
  page : Nat
  limit : Nat
  total_pages : Nat
deriving DecidableEq, Repr

/-- Modelled from the spec: the payload of the list response. -/
structure PaymentPage where
  items : List Transaction
  pagination : Pagination
deriving DecidableEq, Repr

/-- Modelled from the spec: `PaymentService.get_payments` — filter by
status, skip `(page-1)*limit` rows, return at most `limit` rows, and report
`total_pages` as the matching count divided by `limit` rounded up (§6 and
README stage 6). -/
def get_payments (txns : List Transaction) (page limit : Nat) (st : Option Status) :
    PaymentPage :=
  { items := ((filterByStatus txns st).drop ((page - 1) * limit)).take limit,
    pagination := { total := (filterByStatus txns st).length, page := page, limit := limit,
                    total_pages := ((filterByStatus txns st).length + limit - 1) / limit } }


/-- A concrete two-account ledger used to exercise the model: the seeded
debtor `ACC001` with $100000.00 and creditor `SUP001` with $0.00. -/
def cwLedger : Ledger := [("ACC001", 10000000), ("SUP001", 0)]

def cwReq : CreateReq :=
  { debtorId := "ACC001", creditorId := "SUP001", amount := { num := 150050, scale := 2 }, description := none }

def cwT1 : Transaction :=
  { id := "TXN1", debtorId := "ACC001", creditorId := "SUP001", amount := 150050, status := .pending, errorMessage := none, completedAt := none }

def cwT2 : Transaction := { cwT1 with status := .processing }

def cwT3 : Transaction := { cwT1 with status := .completed, completedAt := some 7 }

def cwT4 : Transaction := { cwT1 with status := .failed, errorMessage := some "network timeout", completedAt := some 7 }

def cwS0 : SysState := { ledger := cwLedger, txns := [], logs := [] }

def cwS1 : SysState :=
  { ledger := cwLedger, txns := [cwT1], logs := [{ txnId := "TXN1", oldStatus := none, newStatus := .pending, errorMessage := none }] }

def cwS2 : SysState :=
  { ledger := cwLedger, txns := [cwT2], logs := cwS1.logs ++ [{ txnId := "TXN1", oldStatus := some .pending, newStatus := .processing, errorMessage := none }] }

def cwS3 : SysState :=
  { ledger := [("ACC001", 9849950), ("SUP001", 150050)], txns := [cwT3], logs := cwS2.logs ++ [{ txnId := "TXN1", oldStatus := some .processing, newStatus := .completed, errorMessage := none }] }

def cwS4 : SysState :=
  { ledger := cwLedger, txns := [cwT4], logs := cwS2.logs ++ [{ txnId := "TXN1", oldStatus := some .processing, newStatus := .failed, errorMessage := some "network timeout" }] }

end PaymentSystem

namespace Frontend

open PaymentSystem (Status)

/-- From `frontend/app/lib/types.ts`: the fields of `PaymentDetailResponse`
the verified helpers read (`transaction_status`; the remaining fields are
display-only strings and numbers). -/
structure PaymentDetail where
  transaction_id : String
  transaction_status : Status
deriving DecidableEq, Repr

/-- JavaScript truthiness of a nullable string: `null` and `""` are falsy. -/
def jsTruthyStr : Option String → Bool
  | none => false
  | some s => !(s == "")

/-- From `frontend/app/payments/[id]/page.tsx` (polling `useEffect`): the
effect schedules a 2-second interval unless the page is loading, an error
is set, no payment is loaded, or the observed status is `completed` or
`failed`. -/
def shouldPoll (loading : Bool) (error : Option String) (payment : Option PaymentDetail) :
    Bool :=
  if loading || jsTruthyStr error || payment.isNone then false
  else
    match payment with
    | none => false
    | some p =>
      if p.transaction_status == Status.completed || p.transaction_status == Status.failed then
        false
      else true

/-- From `frontend/app/payments/[id]/page.tsx`: `setInterval(..., 2000)`. -/
def pollIntervalMs : Nat := 2000

/-- From `frontend/app/lib/utils.ts`: the `statusMap` of `getStatusText`
(its own string properties). -/
def statusTextMap : List (String × String) :=
  [("pending", "pending"), ("processing", "processing"),
   ("completed", "completed"), ("failed", "failed")]

/-- A JavaScript value observable from bracket access on a string-valued
object literal followed by `||`: a string property, `undefined`, or a
member inherited from `Object.prototype` (a function, or for `__proto__`
an object — always truthy, never a string). -/
inductive JsValue where
  | str (s : String)
  | jsUndefined
  | protoMember (name : String)
deriving DecidableEq, Repr

/-- The property names every plain object literal inherits from
`Object.prototype`, so that `obj[key]` yields a (truthy) non-string member
even when `key` is not an own property. -/
def protoKeys : List String :=
  ["constructor", "hasOwnProperty", "isPrototypeOf", "propertyIsEnumerable",
   "toLocaleString", "toString", "valueOf",
   "__defineGetter__", "__defineSetter__", "__lookupGetter__", "__lookupSetter__",
   "__proto__"]

/-- JavaScript truthiness of such a value: `undefined` and `""` are falsy;
inherited `Object.prototype` members (functions/objects) are truthy. -/
def jsTruthyVal : JsValue → Bool
  | .str s => !(s == "")
  | .jsUndefined => false
  | .protoMember _ => true

/-- JavaScript bracket access `obj[key]` on a plain object literal with
string-valued own properties: own properties first, then the
`Object.prototype` chain, else `undefined`. -/
def recordGet (own : List (String × String)) (key : String) : JsValue :=
  match own.lookup key with
  | some v => .str v
  | none => if key ∈ protoKeys then .protoMember key else .jsUndefined

/-- JavaScript `a || b` with a string fallback `b`. -/
def jsOrVal (v : JsValue) (fallback : String) : JsValue :=
  if jsTruthyVal v then v else .str fallback

/-- From `frontend/app/lib/utils.ts`: `getStatusText(status) =
statusMap[status] || status`, with `statusMap` a plain object literal, so
the access traverses the prototype chain. -/
def getStatusText (status : String) : JsValue :=
  jsOrVal (recordGet statusTextMap status) status

/-- From `frontend/app/lib/utils.ts`: the `colorMap` of `getStatusColor`
(its own string properties). -/
def statusColorMap : List (String × String) :=
  [("pending", "warning"), ("processing", "info"),
   ("completed", "success"), ("failed", "danger")]

/-- From `frontend/app/lib/utils.ts`: `getStatusColor(status) =
colorMap[status] || 'default'`, with `colorMap` a plain object literal, so
the access traverses the prototype chain. -/
def getStatusColor (status : String) : JsValue :=
  jsOrVal (recordGet statusColorMap status) "default"

/-- From `frontend/app/lib/types.ts`: the `Account` shape returned by the
accounts API (balance carried as a number; its value is not computed on). -/
structure Account where
  account_id : String
  account_name : String
  account_type : String
  balance : Int
deriving DecidableEq, Repr

/-- From `frontend/app/lib/types.ts`: `ApiResponse<T>` — `data` is `none`
when the field is absent, `null` or `undefined` in the JSON. -/
structure ApiResponse (α : Type) where
  success : Bool
  message : Option String
  data : Option α
deriving Repr

/-- From `frontend/app/lib/api.ts`: the result of `getAccounts` on a 2xx
response — `return response.data || []` (an array, even empty, is truthy
in JavaScript, so `||` only replaces an absent `data`). -/
def getAccounts (resp : ApiResponse (List Account)) : List Account :=
  match resp.data with
  | some l => l
  | none => []

end Frontend

namespace PaymentSystem

theorem lookupBal_setBal_self (l : Ledger) (a : String) (v : Int) :
    lookupBal (setBal l a v) a = (lookupBal l a).map (fun _ => v) := by
  induction l with
  | nil => rfl
  | cons hd tl ih =>
    obtain ⟨k, b⟩ := hd
    by_cases h : k = a
    · subst h
      simp [setBal, lookupBal]
    · simp [setBal, lookupBal, h, ih]

theorem lookupBal_setBal_ne (l : Ledger) (a x : String) (v : Int) (h : x ≠ a) :
    lookupBal (setBal l a v) x = lookupBal l x := by
  induction l with
  | nil => rfl
  | cons hd tl ih =>
    obtain ⟨k, b⟩ := hd
    by_cases hk : k = a
    · subst hk
      have hxa : ¬ (k = x) := fun hh => h hh.symm
      simp [setBal, lookupBal, hxa]
    · simp only [setBal, if_neg hk, lookupBal]
      by_cases hx : k = x <;> simp [hx, ih]

theorem sumBal_setBal (l : Ledger) (a : String) (v old : Int)
    (h : lookupBal l a = some old) :
    sumBal (setBal l a v) = sumBal l - old + v := by
  induction l with
  | nil => simp [lookupBal] at h
  | cons hd tl ih =>
    obtain ⟨k, b⟩ := hd
    by_cases hk : k = a
    · subst hk
      simp [lookupBal] at h
      subst h
      simp [setBal, sumBal]
      ring
    · simp only [lookupBal, if_neg hk] at h
      simp only [setBal, if_neg hk, sumBal, List.map_cons, List.sum_cons]
      have := ih h
      simp only [sumBal] at this
      rw [this]
      ring

theorem setBal_nonneg (l : Ledger) (a : String) (v : Int)
    (hl : ∀ p ∈ l, 0 ≤ p.2) (hv : 0 ≤ v) :
    ∀ p ∈ setBal l a v, 0 ≤ p.2 := by
  induction l with
  | nil => simp [setBal]
  | cons hd tl ih =>
    obtain ⟨k, b⟩ := hd
    by_cases hk : k = a
    · subst hk
      simp only [setBal, if_pos rfl]
      intro p hp
      rcases List.mem_cons.mp hp with hp | hp
      · simp [hp, hv]
      · exact hl p (List.mem_cons_of_mem _ hp)
    · simp only [setBal, if_neg hk]
      intro p hp
      rcases List.mem_cons.mp hp with hp | hp
      · exact hl p (by simp [hp])
      · exact ih (fun q hq => hl q (List.mem_cons_of_mem _ hq)) p hp

theorem lookupBal_nonneg (l : Ledger) (a : String) (b : Int)
    (hl : ∀ p ∈ l, 0 ≤ p.2) (h : lookupBal l a = some b) : 0 ≤ b := by
  induction l with
  | nil => simp [lookupBal] at h
  | cons hd tl ih =>
    obtain ⟨k, bb⟩ := hd
    by_cases hk : k = a
    · subst hk
      simp [lookupBal] at h
      subst h
      exact hl (k, bb) (by simp)
    · simp only [lookupBal, if_neg hk] at h
      exact ih (fun q hq => hl q (List.mem_cons_of_mem _ hq)) h

/-- Full characterisation of a successful transfer between two distinct
accounts: the debtor loses exactly `amt`, the creditor gains exactly `amt`,
the total is conserved and no other account is touched. -/
theorem transfer_eq (l : Ledger) (f t : String) (amt : Int) (l' : Ledger)
    (hft : f ≠ t) (h : transfer l f t amt = some l') :
    ∃ fb tb, lookupBal l f = some fb ∧ lookupBal l t = some tb ∧ amt ≤ fb ∧
      lookupBal l' f = some (fb - amt) ∧ lookupBal l' t = some (tb + amt) ∧
      sumBal l' = sumBal l ∧
      (∀ x, x ≠ f → x ≠ t → lookupBal l' x = lookupBal l x) := by
  unfold transfer at h
  split at h
  · exact absurd h (by simp)
  · rename_i fb hf
    split at h
    · rename_i hle
      split at h
      · exact absurd h (by simp)
      · rename_i tb ht
        simp only [Option.some.injEq] at h
        have htb : lookupBal l t = some tb := by
          rw [← ht, lookupBal_setBal_ne l f t (fb - amt) (fun hh => hft hh.symm)]
        refine ⟨fb, tb, hf, htb, hle, ?_, ?_, ?_, ?_⟩
        · rw [← h, lookupBal_setBal_ne _ t f _ hft, lookupBal_setBal_self, hf]
          rfl
        · rw [← h, lookupBal_setBal_self, ht]
          rfl
        · rw [← h, sumBal_setBal _ t _ tb ht, sumBal_setBal l f _ fb hf]
          ring
        · intro x hxf hxt
          rw [← h, lookupBal_setBal_ne _ t x _ hxt, lookupBal_setBal_ne _ f x _ hxf]
    · exact absurd h (by simp)

/-- A successful transfer of a non-negative amount keeps every balance
non-negative. -/
theorem transfer_nonneg (l : Ledger) (f t : String) (amt : Int) (l' : Ledger)
    (h : transfer l f t amt = some l') (hl : ∀ p ∈ l, 0 ≤ p.2) (hamt : 0 ≤ amt) :
    ∀ p ∈ l', 0 ≤ p.2 := by
  unfold transfer at h
  split at h
  · exact absurd h (by simp)
  · rename_i fb hf
    split at h
    · rename_i hle
      split at h
      · exact absurd h (by simp)
      · rename_i tb ht
        simp only [Option.some.injEq] at h
        have h1 : ∀ p ∈ setBal l f (fb - amt), 0 ≤ p.2 :=
          setBal_nonneg l f (fb - amt) hl (by omega)
        have htb : 0 ≤ tb := lookupBal_nonneg _ t tb h1 ht
        rw [← h]
        exact setBal_nonneg _ t (tb + amt) h1 (by omega)
    · exact absurd h (by simp)

theorem validateAmountCents_ok (maxCents : Int) (d : DecAmount) (c : Int)
    (h : validateAmountCents maxCents d = .ok c) : 0 < c ∧ c ≤ maxCents := by
  unfold validateAmountCents at h
  split at h
  · exact absurd h (by simp)
  · split at h
    · rename_i hc
      simp only [Except.ok.injEq] at h
      exact h ▸ hc
    · exact absurd h (by simp)

theorem validateAmountCents_err (maxCents : Int) (d : DecAmount) (e : PayError)
    (h : validateAmountCents maxCents d = .error e) : e = .invalidAmount := by
  unfold validateAmountCents at h
  split at h
  · simp only [Except.error.injEq] at h
    exact h.symm
  · split at h
    · exact absurd h (by simp)
    · simp only [Except.error.injEq] at h
      exact h.symm

theorem create_payment_ok (maxCents : Int) (s : SysState) (req : CreateReq)
    (txnId : String) (s' : SysState) (t : Transaction)
    (h : create_payment maxCents s req txnId = (s', .ok t)) :
    t.id = txnId ∧ t.status = .pending ∧ t.debtorId = req.debtorId ∧
    t.creditorId = req.creditorId ∧ 0 < t.amount ∧ t.debtorId ≠ t.creditorId ∧
    s' = { ledger := s.ledger, txns := s.txns ++ [t],
           logs := s.logs ++ [{ txnId := txnId, oldStatus := none, newStatus := .pending, errorMessage := none }] } := by
  unfold create_payment at h
  split at h
  · exact absurd h (by simp)
  · rename_i cents hv
    split at h
    · exact absurd h (by simp)
    · rename_i dbal hd
      split at h
      · exact absurd h (by simp)
      · rename_i cbal hc
        split at h
        · exact absurd h (by simp)
        · rename_i hne
          split at h
          · exact absurd h (by simp)
          · rename_i hbal
            have hpos := (validateAmountCents_ok maxCents req.amount cents hv).1
            simp only [Prod.mk.injEq, Except.ok.injEq] at h
            obtain ⟨hs, ht⟩ := h
            subst ht
            exact ⟨rfl, rfl, rfl, rfl, hpos, hne, hs.symm⟩

theorem findTxn_some (l : List Transaction) (i : String) (t : Transaction)
    (h : findTxn l i = some t) : t ∈ l ∧ t.id = i := by
  induction l with
  | nil => simp [findTxn] at h
  | cons hd tl ih =>
    by_cases hh : hd.id = i
    · simp only [findTxn, if_pos hh, Option.some.injEq] at h
      subst h
      exact ⟨List.mem_cons_self hd tl, hh⟩
    · simp only [findTxn, if_neg hh] at h
      obtain ⟨hm, hid⟩ := ih h
      exact ⟨List.mem_cons_of_mem _ hm, hid⟩

theorem updateTxn_map_id (l : List Transaction) (i : String)
    (f : Transaction → Transaction) (hf : ∀ u, (f u).id = u.id) :
    (updateTxn l i f).map Transaction.id = l.map Transaction.id := by
  induction l with
  | nil => rfl
  | cons hd tl ih =>
    by_cases hh : hd.id = i
    · simp [updateTxn, if_pos hh, hf]
    · simp [updateTxn, if_neg hh, ih]

theorem mem_updateTxn_weak (l : List Transaction) (i : String)
    (f : Transaction → Transaction) (u : Transaction) (h : u ∈ updateTxn l i f) :
    u ∈ l ∨ ∃ v ∈ l, u = f v := by
  induction l with
  | nil => simp [updateTxn] at h
  | cons hd tl ih =>
    by_cases hh : hd.id = i
    · simp only [updateTxn, if_pos hh] at h
      rcases List.mem_cons.mp h with h | h
      · exact Or.inr ⟨hd, List.mem_cons_self hd tl, h⟩
      · exact Or.inl (List.mem_cons_of_mem _ h)
    · simp only [updateTxn, if_neg hh] at h
      rcases List.mem_cons.mp h with h | h
      · exact Or.inl (h ▸ List.mem_cons_self hd tl)
      · rcases ih h with h | ⟨v, hv, hu⟩
        · exact Or.inl (List.mem_cons_of_mem _ h)
        · exact Or.inr ⟨v, List.mem_cons_of_mem _ hv, hu⟩

theorem mem_updateTxn (l : List Transaction) (i : String)
    (f : Transaction → Transaction) (u : Transaction)
    (hnd : (l.map Transaction.id).Nodup) (h : u ∈ updateTxn l i f) :
    (∃ v, v ∈ l ∧ v.id = i ∧ u = f v) ∨ (u ∈ l ∧ u.id ≠ i) := by
  induction l with
  | nil => simp [updateTxn] at h
  | cons hd tl ih =>
    simp only [List.map_cons, List.nodup_cons] at hnd
    obtain ⟨hnotin, hndtl⟩ := hnd
    by_cases hh : hd.id = i
    · simp only [updateTxn, if_pos hh] at h
      rcases List.mem_cons.mp h with h | h
      · exact Or.inl ⟨hd, List.mem_cons_self hd tl, hh, h⟩
      · refine Or.inr ⟨List.mem_cons_of_mem _ h, ?_⟩
        intro hui
        exact hnotin (by rw [hh, ← hui]; exact List.mem_map_of_mem _ h)
    · simp only [updateTxn, if_neg hh] at h
      rcases List.mem_cons.mp h with h | h
      · subst h
        exact Or.inr ⟨List.mem_cons_self u tl, hh⟩
      · rcases ih hndtl h with ⟨v, hv, hvi, hu⟩ | ⟨hm, hni⟩
        · exact Or.inl ⟨v, List.mem_cons_of_mem _ hv, hvi, hu⟩
        · exact Or.inr ⟨List.mem_cons_of_mem _ hm, hni⟩

theorem mem_updateTxn_of_ne (l : List Transaction) (i : String)
    (f : Transaction → Transaction) (u : Transaction)
    (hm : u ∈ l) (hne : u.id ≠ i) : u ∈ updateTxn l i f := by
  induction l with
  | nil => simp at hm
  | cons hd tl ih =>
    by_cases hh : hd.id = i
    · simp only [updateTxn, if_pos hh]
      rcases List.mem_cons.mp hm with h | h
      · exact absurd (h ▸ hh) hne
      · exact List.mem_cons_of_mem _ h
    · simp only [updateTxn, if_neg hh]
      rcases List.mem_cons.mp hm with h | h
      · subst h
        exact List.mem_cons_self u (updateTxn tl i f)
      · exact List.mem_cons_of_mem _ (ih h)

theorem trailOf_append (logs : List LogEntry) (e : LogEntry) (i : String) :
    trailOf (logs ++ [e]) i =
      trailOf logs i ++ (if e.txnId = i then [e.newStatus] else []) := by
  unfold trailOf
  rw [List.filter_append]
  by_cases hh : e.txnId = i
  · simp [hh]
  · simp [hh]

theorem start_processing_some (s : SysState) (txnId : String) (s' : SysState)
    (h : start_processing s txnId = some s') :
    ∃ t, findTxn s.txns txnId = some t ∧ t.status = .pending ∧
      s' = { ledger := s.ledger, txns := updateTxn s.txns txnId (fun u => { u with status := .processing }), logs := s.logs ++ [{ txnId := txnId, oldStatus := some .pending, newStatus := .processing, errorMessage := none }] } := by
  unfold start_processing at h
  split at h
  · exact absurd h (by simp)
  · rename_i t hfind
    split at h
    · rename_i hst
      simp only [Option.some.injEq] at h
      exact ⟨t, hfind, hst, h.symm⟩
    · exact absurd h (by simp)

theorem complete_payment_some (s : SysState) (txnId : String) (now : Nat) (s' : SysState)
    (h : complete_payment s txnId now = some s') :
    ∃ t l2, findTxn s.txns txnId = some t ∧ t.status = .processing ∧
      transfer s.ledger t.debtorId t.creditorId t.amount = some l2 ∧
      s' = { ledger := l2, txns := updateTxn s.txns txnId (fun u => { u with status := .completed, completedAt := some now }), logs := s.logs ++ [{ txnId := txnId, oldStatus := some .processing, newStatus := .completed, errorMessage := none }] } := by
  unfold complete_payment at h
  split at h
  · exact absurd h (by simp)
  · rename_i t hfind
    split at h
    · rename_i hst
      split at h
      · exact absurd h (by simp)
      · rename_i l2 htr
        simp only [Option.some.injEq] at h
        exact ⟨t, l2, hfind, hst, htr, h.symm⟩
    · exact absurd h (by simp)

theorem fail_payment_some (s : SysState) (txnId msg : String) (now : Nat) (s' : SysState)
    (h : fail_payment s txnId msg now = some s') :
    ∃ t, findTxn s.txns txnId = some t ∧ t.status = .processing ∧
      s' = { ledger := s.ledger, txns := updateTxn s.txns txnId (fun u => { u with status := .failed, errorMessage := some msg, completedAt := some now }), logs := s.logs ++ [{ txnId := txnId, oldStatus := some .processing, newStatus := .failed, errorMessage := some msg }] } := by
  unfold fail_payment at h
  split at h
  · exact absurd h (by simp)
  · rename_i t hfind
    split at h
    · rename_i hst
      simp only [Option.some.injEq] at h
      exact ⟨t, hfind, hst, h.symm⟩
    · exact absurd h (by simp)

theorem trailOf_append_ne (logs : List LogEntry) (e : LogEntry) (i : String)
    (h : e.txnId ≠ i) : trailOf (logs ++ [e]) i = trailOf logs i := by
  rw [trailOf_append, if_neg h, List.append_nil]

theorem trailOf_append_eq (logs : List LogEntry) (e : LogEntry) (i : String)
    (h : e.txnId = i) : trailOf (logs ++ [e]) i = trailOf logs i ++ [e.newStatus] := by
  rw [trailOf_append, if_pos h]

theorem auditInv_advance (s : SysState) (L : Ledger) (txnId : String) (t : Transaction)
    (stNew : Status) (f : Transaction → Transaction) (e : LogEntry)
    (hinv : AuditInv s)
    (hfind : findTxn s.txns txnId = some t)
    (hf_id : ∀ u, (f u).id = u.id)
    (hft : (f t).status = stNew)
    (he_id : e.txnId = txnId) (he_new : e.newStatus = stNew)
    (htrail : expectedTrail stNew = expectedTrail t.status ++ [stNew]) :
    AuditInv { ledger := L, txns := updateTxn s.txns txnId f, logs := s.logs ++ [e] } := by
  obtain ⟨hnd, hempty, hmatch⟩ := hinv
  obtain ⟨htmem, htid⟩ := findTxn_some s.txns txnId t hfind
  refine ⟨?_, ?_, ?_⟩
  · simpa [updateTxn_map_id s.txns txnId f hf_id] using hnd
  · intro i hall
    have hids : ∀ u ∈ s.txns, u.id ≠ i := by
      intro u hu
      have hmem : u.id ∈ (updateTxn s.txns txnId f).map Transaction.id := by
        rw [updateTxn_map_id s.txns txnId f hf_id]
        exact List.mem_map_of_mem _ hu
      obtain ⟨w, hw, hwid⟩ := List.mem_map.mp hmem
      rw [← hwid]
      exact hall w hw
    rw [trailOf_append_ne s.logs e i (fun hh => (hids t htmem) (htid.trans (he_id ▸ hh)))]
    exact hempty i hids
  · intro u hu
    rcases mem_updateTxn s.txns txnId f u hnd hu with ⟨v, hv, hvi, huv⟩ | ⟨hm, hni⟩
    · have hvt : v = t := List.inj_on_of_nodup_map hnd hv htmem (by rw [hvi, htid])
      subst hvt
      subst huv
      rw [hf_id, hvi, trailOf_append_eq s.logs e txnId he_id, he_new, hft, htrail]
      rw [← hvi, hmatch v hv]
    · rw [trailOf_append_ne s.logs e u.id (fun hh => hni ((he_id ▸ hh).symm))]
      exact hmatch u hm

theorem auditInv_step (maxCents : Int) (s s' : SysState) (h : Step maxCents s s')
    (hinv : AuditInv s) : AuditInv s' := by
  obtain ⟨hnd, hempty, hmatch⟩ := hinv
  cases h with
  | create req txnId t hfresh hcr =>
    obtain ⟨htid, htst, _, _, _, _, hs'⟩ :=
      create_payment_ok maxCents s req txnId s' t hcr
    have hfresh' : txnId ∉ s.txns.map Transaction.id := by
      intro hmem
      obtain ⟨u, hu, hid⟩ := List.mem_map.mp hmem
      exact hfresh u hu hid
    subst hs'
    refine ⟨?_, ?_, ?_⟩
    · simp only [List.map_append, List.map_cons, List.map_nil, htid]
      rw [List.nodup_append]
      refine ⟨hnd, List.nodup_singleton txnId, ?_⟩
      intro a ha hb
      simp only [List.mem_singleton] at hb
      subst hb
      exact hfresh' ha
    · intro i hall
      have hallold : ∀ u ∈ s.txns, u.id ≠ i := fun u hu => hall u (List.mem_append_left _ hu)
      have hti : t.id ≠ i := hall t (List.mem_append_right _ (List.mem_cons_self t []))
      rw [trailOf_append_ne s.logs _ i (fun hh => hti (htid.trans hh))]
      exact hempty i hallold
    · intro u hu
      rcases List.mem_append.mp hu with hu | hu
      · have hune : u.id ≠ txnId := hfresh u hu
        rw [trailOf_append_ne s.logs _ u.id (fun hh => hune hh.symm)]
        exact hmatch u hu
      · have hu' : u = t := by simpa using hu
        subst hu'
        rw [htid, trailOf_append_eq s.logs _ txnId rfl]
        rw [hempty txnId (fun v hv => hfresh v hv), htst]
        rfl
  | startProcessing txnId hsp =>
    obtain ⟨t, hfind, hst, hs'⟩ := start_processing_some s txnId s' hsp
    subst hs'
    exact auditInv_advance s s.ledger txnId t .processing _ _ ⟨hnd, hempty, hmatch⟩
      hfind (fun u => rfl) rfl rfl rfl (by rw [hst]; decide)
  | completePay txnId now hcp =>
    obtain ⟨t, l2, hfind, hst, htr, hs'⟩ := complete_payment_some s txnId now s' hcp
    subst hs'
    exact auditInv_advance s l2 txnId t .completed _ _ ⟨hnd, hempty, hmatch⟩
      hfind (fun u => rfl) rfl rfl rfl (by rw [hst]; decide)
  | failPay txnId msg now hfp =>
    obtain ⟨t, hfind, hst, hs'⟩ := fail_payment_some s txnId msg now s' hfp
    subst hs'
    exact auditInv_advance s s.ledger txnId t .failed _ _ ⟨hnd, hempty, hmatch⟩
      hfind (fun u => rfl) rfl rfl rfl (by rw [hst]; decide)

theorem auditInv_reachable (maxCents : Int) (s₀ s : SysState)
    (h : Reachable maxCents s₀ s) (hinv : AuditInv s₀) : AuditInv s := by
  induction h with
  | refl => exact hinv
  | tail _ hstep ih => exact auditInv_step maxCents _ _ hstep ih

theorem amountsPos_updateTxn (l : List Transaction) (i : String)
    (f : Transaction → Transaction) (hf : ∀ u, (f u).amount = u.amount)
    (h : ∀ t ∈ l, 0 < t.amount) : ∀ t ∈ updateTxn l i f, 0 < t.amount := by
  intro u hu
  rcases mem_updateTxn_weak l i f u hu with h1 | ⟨v, hv, huv⟩
  · exact h u h1
  · rw [huv, hf]
    exact h v hv

theorem nonneg_step (maxCents : Int) (s s' : SysState) (h : Step maxCents s s')
    (h1 : LedgerNonNeg s) (h2 : AmountsPos s) : LedgerNonNeg s' ∧ AmountsPos s' := by
  cases h with
  | create req txnId t hfresh hcr =>
    obtain ⟨_, _, _, _, hpos, _, hs'⟩ := create_payment_ok maxCents s req txnId s' t hcr
    subst hs'
    refine ⟨h1, ?_⟩
    intro u hu
    rcases List.mem_append.mp hu with hu | hu
    · exact h2 u hu
    · have hu' : u = t := by simpa using hu
      subst hu'
      exact hpos
  | startProcessing txnId hsp =>
    obtain ⟨t, hfind, hst, hs'⟩ := start_processing_some s txnId s' hsp
    subst hs'
    exact ⟨h1, amountsPos_updateTxn s.txns txnId _ (fun u => rfl) h2⟩
  | completePay txnId now hcp =>
    obtain ⟨t, l2, hfind, hst, htr, hs'⟩ := complete_payment_some s txnId now s' hcp
    subst hs'
    have hmem := (findTxn_some s.txns txnId t hfind).1
    have hamt : 0 < t.amount := h2 t hmem
    refine ⟨?_, amountsPos_updateTxn s.txns txnId _ (fun u => rfl) h2⟩
    exact transfer_nonneg s.ledger t.debtorId t.creditorId t.amount l2 htr h1 (le_of_lt hamt)
  | failPay txnId msg now hfp =>
    obtain ⟨t, hfind, hst, hs'⟩ := fail_payment_some s txnId msg now s' hfp
    subst hs'
    exact ⟨h1, amountsPos_updateTxn s.txns txnId _ (fun u => rfl) h2⟩

theorem nonneg_reachable (maxCents : Int) (s₀ s : SysState)
    (h : Reachable maxCents s₀ s) (h1 : LedgerNonNeg s₀) (h2 : AmountsPos s₀) :
    LedgerNonNeg s ∧ AmountsPos s := by
  induction h with
  | refl => exact ⟨h1, h2⟩
  | tail _ hstep ih => exact nonneg_step maxCents _ _ hstep ih.1 ih.2

theorem ceil_div_galois (T L : Nat) (hL : 0 < L) (k : Nat) :
    (T + L - 1) / L ≤ k ↔ T ≤ L * k :=
  ceilDiv_le_iff_le_mul hL

end PaymentSystem

namespace PaymentSystem

theorem cwStep01 : Step 100000000 cwS0 cwS1 :=
  Step.create cwS0 cwS1 cwReq "TXN1" cwT1 (by simp [cwS0]) (by rfl)

theorem cwStep12 : Step 100000000 cwS1 cwS2 :=
  Step.startProcessing cwS1 cwS2 "TXN1" (by rfl)

theorem cwStep23 : Step 100000000 cwS2 cwS3 :=
  Step.completePay cwS2 cwS3 "TXN1" 7 (by rfl)

theorem cwReach03 : Reachable 100000000 cwS0 cwS3 :=
  Relation.ReflTransGen.tail
    (Relation.ReflTransGen.tail (Relation.ReflTransGen.single cwStep01) cwStep12) cwStep23

/-- Claim C1: for every transaction that reaches `status=completed`, the
settlement transfer decreases the debtor account's balance by exactly the
transaction amount and increases the creditor account's balance by exactly
the same amount, so the sum of all account balances in the ledger is
unchanged across the transfer. -/
theorem C1_conservation (s s' : SysState) (txnId : String) (now : Nat) (t : Transaction)
    (hfind : findTxn s.txns txnId = some t)
    (hne : t.debtorId ≠ t.creditorId)
    (h : complete_payment s txnId now = some s') :
    ∃ db cb, lookupBal s.ledger t.debtorId = some db ∧
      lookupBal s.ledger t.creditorId = some cb ∧
      lookupBal s'.ledger t.debtorId = some (db - t.amount) ∧
      lookupBal s'.ledger t.creditorId = some (cb + t.amount) ∧
      sumBal s'.ledger = sumBal s.ledger := by
  obtain ⟨t2, l2, hfind2, hst, htr, hs'⟩ := complete_payment_some s txnId now s' h
  have ht2 : t2 = t := by
    injection hfind2.symm.trans hfind
  subst ht2
  obtain ⟨fb, tb, hf, htc, hle, hf', ht', hsum, _⟩ :=
    transfer_eq s.ledger t2.debtorId t2.creditorId t2.amount l2 hne htr
  subst hs'
  exact ⟨fb, tb, hf, htc, hf', ht', hsum⟩

theorem C1_witness :
    ∃ db cb, lookupBal cwS2.ledger cwT2.debtorId = some db ∧
      lookupBal cwS2.ledger cwT2.creditorId = some cb ∧
      lookupBal cwS3.ledger cwT2.debtorId = some (db - cwT2.amount) ∧
      lookupBal cwS3.ledger cwT2.creditorId = some (cb + cwT2.amount) ∧
      sumBal cwS3.ledger = sumBal cwS2.ledger :=
  C1_conservation cwS2 cwS3 "TXN1" 7 cwT2 (by rfl) (by decide) (by rfl)

/-- Claim C2: at every reachable state, the ordered sequence of `new_status`
values of a transaction's audit entries is exactly the trail demanded by
its status-transition history, hence one of `[pending]`,
`[pending, processing]`, `[pending, processing, completed]`,
`[pending, processing, failed]` — never skipped, repeated or reordered. -/
theorem C2_audit_trail (maxCents : Int) (s0 s : SysState)
    (h0t : s0.txns = []) (h0l : s0.logs = [])
    (hr : Reachable maxCents s0 s) :
    ∀ t ∈ s.txns, trailOf s.logs t.id = expectedTrail t.status ∧
      (trailOf s.logs t.id = [Status.pending] ∨
       trailOf s.logs t.id = [Status.pending, Status.processing] ∨
       trailOf s.logs t.id = [Status.pending, Status.processing, Status.completed] ∨
       trailOf s.logs t.id = [Status.pending, Status.processing, Status.failed]) := by
  have hinv : AuditInv s0 := by
    refine ⟨by simp [h0t], ?_, ?_⟩
    · intro i _
      simp [h0l, trailOf]
    · intro t ht
      rw [h0t] at ht
      simp at ht
  have hinv2 := auditInv_reachable maxCents s0 s hr hinv
  intro t ht
  have heq := hinv2.2.2 t ht
  refine ⟨heq, ?_⟩
  rw [heq]
  cases t.status <;> simp [expectedTrail]

theorem C2_witness : trailOf cwS3.logs cwT3.id = expectedTrail cwT3.status :=
  (C2_audit_trail 100000000 cwS0 cwS3 rfl rfl cwReach03 cwT3 (by decide)).1

/-- Claim C3: every `create` call that fails returns its error
synchronously and writes no state at all — no transaction record, no
audit-log entry and no balance change; the resulting state is exactly the
state before the call. -/
theorem C3_create_no_partial_writes (maxCents : Int) (s : SysState) (req : CreateReq)
    (txnId : String) (e : PayError)
    (h : (create_payment maxCents s req txnId).2 = .error e) :
    (create_payment maxCents s req txnId).1 = s := by
  unfold create_payment at h ⊢
  split at h
  · rfl
  · split at h
    · rfl
    · split at h
      · rfl
      · split at h
        · rename_i hsame
          rw [if_pos hsame]
        · rename_i hsame
          split at h
          · rename_i hbal
            rw [if_neg hsame, if_pos hbal]
          · exact absurd h (by simp)

theorem C3_witness :
    (create_payment 100000000 cwS0 { debtorId := "ACC001", creditorId := "ACC001", amount := { num := 150050, scale := 2 }, description := none } "TXN9").1 = cwS0 :=
  C3_create_no_partial_writes 100000000 cwS0
    { debtorId := "ACC001", creditorId := "ACC001", amount := { num := 150050, scale := 2 }, description := none }
    "TXN9" PayError.sameAccount (by rfl)

/-- Claim C4: a settlement that ends in `status=failed` leaves every
account balance unchanged; the only state written is the transaction's
`status`, `error_message` and `completed_at` fields (all other transaction
records are untouched) plus one `processing→failed` audit-log entry. -/
theorem C4_fail_frame (s s' : SysState) (txnId msg : String) (now : Nat)
    (h : fail_payment s txnId msg now = some s') :
    s'.ledger = s.ledger ∧
    (∃ t, findTxn s.txns txnId = some t ∧ t.status = .processing ∧
      s'.txns = updateTxn s.txns txnId
        (fun u => { u with status := Status.failed, errorMessage := some msg, completedAt := some now }) ∧
      (∀ u ∈ s.txns, u.id ≠ txnId → u ∈ s'.txns) ∧
      s'.logs = s.logs ++ [{ txnId := txnId, oldStatus := some Status.processing, newStatus := Status.failed, errorMessage := some msg }]) := by
  obtain ⟨t, hfind, hst, hs'⟩ := fail_payment_some s txnId msg now s' h
  subst hs'
  refine ⟨rfl, t, hfind, hst, rfl, ?_, rfl⟩
  intro u hu hune
  exact mem_updateTxn_of_ne s.txns txnId _ u hu hune

theorem C4_witness : cwS4.ledger = cwS2.ledger :=
  (C4_fail_frame cwS2 cwS4 "TXN1" "network timeout" 7 (by rfl)).1

/-- Claim C5: starting from any bootstrap state whose seeded balances are
all non-negative and which holds no transactions yet, every account balance
is non-negative in every reachable state — no interleaving of creations and
settlements ever drives a balance negative. -/
theorem C5_nonnegativity (maxCents : Int) (s0 s : SysState)
    (h0 : ∀ p ∈ s0.ledger, 0 ≤ p.2) (h0t : s0.txns = [])
    (hr : Reachable maxCents s0 s) :
    ∀ p ∈ s.ledger, 0 ≤ p.2 := by
  have h2 : AmountsPos s0 := by
    intro t ht
    rw [h0t] at ht
    simp at ht
  exact (nonneg_reachable maxCents s0 s hr h0 h2).1

theorem C5_witness : (0 : Int) ≤ (("ACC001", (9849950 : Int))).2 :=
  C5_nonnegativity 100000000 cwS0 cwS3 (by decide) rfl cwReach03 ("ACC001", 9849950) (by decide)

/-- Claim C6: creation-time amount validation accepts an amount if and only
if it is positive, has at most 2 decimal places and does not exceed the
configured maximum; any other amount makes `create` fail with
`InvalidAmount` before any further validation, leaving the state
untouched regardless of the accounts involved. -/
theorem C6_amount_validation (maxCents : Int) (d : DecAmount) :
    ((∃ c, validateAmountCents maxCents d = .ok c) ↔
      (0 < d.num ∧ (d.num * 100) % ((10 : Int) ^ d.scale) = 0 ∧
        d.num * 100 ≤ maxCents * (10 : Int) ^ d.scale)) ∧
    (∀ (s : SysState) (req : CreateReq) (txnId : String),
      (¬ ∃ c, validateAmountCents maxCents req.amount = .ok c) →
      create_payment maxCents s req txnId = (s, .error .invalidAmount)) := by
  have hP : (0 : Int) < (10 : Int) ^ d.scale := pow_pos (by norm_num) _
  constructor
  · constructor
    · rintro ⟨c, hc⟩
      unfold validateAmountCents at hc
      split at hc
      · exact absurd hc (by simp)
      · rename_i c0 heq
        split at hc
        · rename_i hcond
          simp only [Except.ok.injEq] at hc
          subst hc
          unfold toCents at heq
          split at heq
          · rename_i hdvd
            simp only [Option.some.injEq] at heq
            have hdv : ((10 : Int) ^ d.scale) ∣ d.num * 100 :=
              Int.dvd_of_emod_eq_zero hdvd
            have hmul : d.num * 100 = c0 * (10 : Int) ^ d.scale := by
              rw [← heq]
              exact (Int.ediv_mul_cancel hdv).symm
            have h100 : 0 < d.num * 100 := by
              rw [hmul]
              exact mul_pos hcond.1 hP
            refine ⟨by omega, hdvd, ?_⟩
            rw [hmul]
            exact mul_le_mul_of_nonneg_right hcond.2 (le_of_lt hP)
          · exact absurd heq (by simp)
        · exact absurd hc (by simp)
    · rintro ⟨hpos, hdvd, hle⟩
      refine ⟨(d.num * 100) / ((10 : Int) ^ d.scale), ?_⟩
      have hdv : ((10 : Int) ^ d.scale) ∣ d.num * 100 := Int.dvd_of_emod_eq_zero hdvd
      have hmul : d.num * 100 = ((d.num * 100) / ((10 : Int) ^ d.scale)) * (10 : Int) ^ d.scale :=
        (Int.ediv_mul_cancel hdv).symm
      have hcpos : 0 < (d.num * 100) / ((10 : Int) ^ d.scale) := by
        have h1 : (0 : Int) < ((d.num * 100) / ((10 : Int) ^ d.scale)) * (10 : Int) ^ d.scale := by
          rw [← hmul]
          omega
        exact (mul_lt_mul_right hP).mp (by simpa using h1)
      have hcle : (d.num * 100) / ((10 : Int) ^ d.scale) ≤ maxCents := by
        have h1 : ((d.num * 100) / ((10 : Int) ^ d.scale)) * (10 : Int) ^ d.scale ≤ maxCents * (10 : Int) ^ d.scale := by
          rw [← hmul]
          exact hle
        exact (mul_le_mul_right hP).mp h1
      unfold validateAmountCents toCents
      rw [if_pos hdvd]
      simp only []
      rw [if_pos ⟨hcpos, hcle⟩]
  · intro s req txnId hno
    cases hv : validateAmountCents maxCents req.amount with
    | ok c => exact absurd ⟨c, hv⟩ hno
    | error e =>
      have he := validateAmountCents_err maxCents req.amount e hv
      subst he
      unfold create_payment
      rw [hv]

theorem C6_witness : ∃ c, validateAmountCents 100000000 { num := 150050, scale := 2 } = Except.ok c :=
  (C6_amount_validation 100000000 { num := 150050, scale := 2 }).1.mpr (by decide)

/-- Claim C8: a payment list query filtered by `status=completed` with
`page=1` and `limit=10` over exactly 50 matching transactions returns
exactly 10 items with `total_pages = 5`; in general `total_pages` is the
least page count covering the matching total, i.e. the matching count
divided by the limit rounded up. -/
theorem C8_pagination :
    (∀ txns : List Transaction,
      (filterByStatus txns (some Status.completed)).length = 50 →
      (get_payments txns 1 10 (some Status.completed)).items.length = 10 ∧
      (get_payments txns 1 10 (some Status.completed)).pagination.total_pages = 5) ∧
    (∀ (txns : List Transaction) (page limit : Nat) (st : Option Status), 0 < limit →
      ∀ k, (get_payments txns page limit st).pagination.total_pages ≤ k ↔
        (filterByStatus txns st).length ≤ limit * k) := by
  constructor
  · intro txns h
    constructor
    · show (((filterByStatus txns (some Status.completed)).drop 0).take 10).length = 10
      simp [List.length_take, h]
    · show ((filterByStatus txns (some Status.completed)).length + 10 - 1) / 10 = 5
      rw [h]
  · intro txns page limit st hlim k
    exact ceil_div_galois (filterByStatus txns st).length limit hlim k

theorem C8_witness :
    ((get_payments (List.replicate 50 cwT3) 1 10 (some Status.completed)).items.length = 10 ∧
     (get_payments (List.replicate 50 cwT3) 1 10 (some Status.completed)).pagination.total_pages = 5) ∧
    ((get_payments (List.replicate 50 cwT3) 1 10 (some Status.completed)).pagination.total_pages ≤ 5 ↔
      (filterByStatus (List.replicate 50 cwT3) (some Status.completed)).length ≤ 10 * 5) :=
  ⟨C8_pagination.1 (List.replicate 50 cwT3) (by rfl),
   C8_pagination.2 (List.replicate 50 cwT3) 1 10 (some Status.completed) (by decide) 5⟩

end PaymentSystem
namespace Frontend

open PaymentSystem (Status)

/-- Claim C7: the payment detail page's polling effect schedules a fixed
2000 ms re-fetch interval exactly when the page is not loading, no error is
set, and the loaded payment's observed status is `pending` or `processing`;
whenever the observed status is `completed` or `failed` (or any guard
fails) no further fetch is scheduled. -/
theorem C7_polling_contract :
    pollIntervalMs = 2000 ∧
    ∀ (loading : Bool) (error : Option String) (payment : Option PaymentDetail),
      shouldPoll loading error payment = true ↔
        (loading = false ∧ jsTruthyStr error = false ∧
          ∃ p, payment = some p ∧
            (p.transaction_status = Status.pending ∨ p.transaction_status = Status.processing)) := by
  refine ⟨rfl, ?_⟩
  intro loading error payment
  cases loading
  · cases payment with
    | none => simp [shouldPoll]
    | some p =>
      cases he : jsTruthyStr error
      · cases hst : p.transaction_status <;>
          simp [shouldPoll, he, hst]
      · simp [shouldPoll, he]
  · simp [shouldPoll]

theorem C7_witness :
    shouldPoll false none (some { transaction_id := "TXN1", transaction_status := Status.pending }) = true :=
  (C7_polling_contract.2 false none (some { transaction_id := "TXN1", transaction_status := Status.pending })).mpr
    ⟨rfl, rfl, { transaction_id := "TXN1", transaction_status := Status.pending }, rfl, Or.inl rfl⟩

/-- Claim C9, counterexample: bracket access on the plain object literals
traverses the prototype chain, so `getStatusText("toString")` returns the
inherited (truthy) `Object.prototype.toString` function instead of the
input string, and `getStatusColor("constructor")` returns the inherited
`constructor` member instead of `'default'` — refuting the claim as
stated. -/
theorem C9_counterexample :
    getStatusText "toString" ≠ JsValue.str "toString" ∧
    getStatusColor "constructor" ≠ JsValue.str "default" := by
  decide

/-- Claim C9, as amended: `getStatusText` is the identity on every input
string that is not an `Object.prototype` property name, and on those
twelve names it returns the inherited prototype member instead;
`getStatusColor` returns `warning`, `info`, `success`, `danger` for the
four statuses, `default` for every other input that is not an
`Object.prototype` property name, and the inherited prototype member on
those names; both functions are total. -/
theorem C9_status_maps :
    (∀ s, s ∉ protoKeys → getStatusText s = JsValue.str s) ∧
    (∀ s, s ∈ protoKeys → getStatusText s = JsValue.protoMember s) ∧
    getStatusColor "pending" = JsValue.str "warning" ∧
    getStatusColor "processing" = JsValue.str "info" ∧
    getStatusColor "completed" = JsValue.str "success" ∧
    getStatusColor "failed" = JsValue.str "danger" ∧
    (∀ s, s ≠ "pending" → s ≠ "processing" → s ≠ "completed" → s ≠ "failed" →
      s ∉ protoKeys → getStatusColor s = JsValue.str "default") ∧
    (∀ s, s ∈ protoKeys → getStatusColor s = JsValue.protoMember s) := by
  refine ⟨?_, by decide, rfl, rfl, rfl, rfl, ?_, by decide⟩
  · intro s hproto
    by_cases h1 : s = "pending"
    · subst h1; rfl
    by_cases h2 : s = "processing"
    · subst h2; rfl
    by_cases h3 : s = "completed"
    · subst h3; rfl
    by_cases h4 : s = "failed"
    · subst h4; rfl
    have e1 : (s == "pending") = false := beq_eq_false_iff_ne.mpr h1
    have e2 : (s == "processing") = false := beq_eq_false_iff_ne.mpr h2
    have e3 : (s == "completed") = false := beq_eq_false_iff_ne.mpr h3
    have e4 : (s == "failed") = false := beq_eq_false_iff_ne.mpr h4
    simp [getStatusText, recordGet, statusTextMap, List.lookup, jsOrVal, jsTruthyVal,
      e1, e2, e3, e4, hproto]
  · intro s h1 h2 h3 h4 hproto
    have e1 : (s == "pending") = false := beq_eq_false_iff_ne.mpr h1
    have e2 : (s == "processing") = false := beq_eq_false_iff_ne.mpr h2
    have e3 : (s == "completed") = false := beq_eq_false_iff_ne.mpr h3
    have e4 : (s == "failed") = false := beq_eq_false_iff_ne.mpr h4
    simp [getStatusColor, recordGet, statusColorMap, List.lookup, jsOrVal, jsTruthyVal,
      e1, e2, e3, e4, hproto]

theorem C9_witness :
    (getStatusText "cancelled" = JsValue.str "cancelled" ∧
     getStatusColor "cancelled" = JsValue.str "default") ∧
    getStatusText "toString" = JsValue.protoMember "toString" :=
  ⟨⟨C9_status_maps.1 "cancelled" (by decide),
    C9_status_maps.2.2.2.2.2.2.1 "cancelled" (by decide) (by decide) (by decide) (by decide)
      (by decide)⟩,
   C9_status_maps.2.1 "toString" (by decide)⟩

/-- Claim C10: for every accounts API response whose `data` field is
absent (`null`/`undefined`), `getAccounts` returns the empty array, and
when `data` is present it returns exactly that list — callers always
receive a list value. -/
theorem C10_accounts_fallback :
    (∀ resp : ApiResponse (List Account), resp.data = none → getAccounts resp = []) ∧
    (∀ (resp : ApiResponse (List Account)) (l : List Account),
      resp.data = some l → getAccounts resp = l) := by
  constructor
  · intro resp h
    unfold getAccounts
    rw [h]
  · intro resp l h
    unfold getAccounts
    rw [h]

theorem C10_witness :
    getAccounts { success := true, message := none, data := none } = [] :=
  C10_accounts_fallback.1 { success := true, message := none, data := none } rfl

end Frontend
